import Mathlib

/-
Verification of the two algorithmic components of the agent-skills repository:

* `ExampleData` embeds the sentence segmenter and chunker of
  `skills/weaviate/scripts/example_data.py` (`_get_sentences`, `chunk_by_sentences`).
  Documents are modeled as `List Char`; the Python slice `document[a:b]` is
  `(doc.take b).drop a`; `str.strip()` is `strip`; the regex
  `(?<=[.?!])\s+` together with `re.finditer` yields exactly the maximal
  whitespace runs whose immediately preceding character is one of `.`, `?`, `!`,
  which `scanRuns` computes by a single left-to-right scan.  The `while` loop of
  `chunk_by_sentences` advances its index `i` by at least one sentence per
  iteration, so it performs at most one iteration per sentence; `chunkLoop` runs
  the loop with that iteration count as (provably irrelevant) fuel.

* `FetchFilter` embeds the recursive JSON filter compiler of
  `skills/weaviate/scripts/fetch_filter.py` (`parse_filter_item`).  JSON values
  are the inductive `Json`; Python `dict.get` is `jget`/`jgetPy`/`jgetD`;
  `typer.Exit(1)` (and an uncaught `TypeError` from iterating a non-iterable
  `filters` value, which the `except Exception` handler in `main` also turns
  into exit code 1) is `Except.error 1`; warnings printed to stderr are returned
  as a list of strings.
-/

namespace ExampleData

/-- Python `\s` on the ASCII range (the characters relevant to this develop-
ment); `str.strip()` and the segmenter regex both use this class. -/
def isPySpace (c : Char) : Bool :=
  c = ' ' || c = '\t' || c = '\n' || c = '\r' || c = '\x0b' || c = '\x0c'

/-- The sentence boundary characters of `_get_sentences`. -/
def isTerm (c : Char) : Bool :=
  c = '.' || c = '?' || c = '!'

/-- Python slice `doc[a:b]` for nonnegative indices. -/
def sliceDoc (doc : List Char) (a b : Nat) : List Char :=
  (doc.take b).drop a

/-- Python `str.strip()`. -/
def strip (l : List Char) : List Char :=
  ((l.dropWhile isPySpace).reverse.dropWhile isPySpace).reverse

/-- Left-to-right scan computing the matches of `re.finditer` for the pattern
`(?<=[.?!])\s+`: the maximal whitespace runs whose immediately preceding
character is a sentence terminator, as half-open position intervals.
`prevTerm` records whether the previous character is a terminator and
`runStart` the start of the whitespace run currently being read, if any. -/
def scanRuns : List Char → Bool → Nat → Option Nat → List (Nat × Nat)
  | [], _, pos, runStart =>
      match runStart with
      | some s => [(s, pos)]
      | none => []
  | c :: rest, prevTerm, pos, runStart =>
      match runStart with
      | some s =>
          if isPySpace c then scanRuns rest (isTerm c) (pos + 1) (some s)
          else (s, pos) :: scanRuns rest (isTerm c) (pos + 1) none
      | none =>
          if prevTerm && isPySpace c then scanRuns rest (isTerm c) (pos + 1) (some pos)
          else scanRuns rest (isTerm c) (pos + 1) none

/-- All regex matches of the sentence-boundary pattern in `doc`. -/
def boundaryMatches (doc : List Char) : List (Nat × Nat) :=
  scanRuns doc false 0 none

/-- The `for match in re.finditer(...)` loop of `_get_sentences` followed by the
handling of the remaining text: slices the text before each match, strips it,
and keeps it (with its unstripped span) when nonempty; `cur` is `current_pos`. -/
def buildSentences (doc : List Char) : List (Nat × Nat) → Nat → List (List Char) × List (Nat × Nat)
  | [], cur =>
      let remaining := strip (doc.drop cur)
      if remaining = [] then ([], [])
      else ([remaining], [(cur, doc.length)])
  | (s, e) :: rest, cur =>
      let sentence := strip (sliceDoc doc cur s)
      let r := buildSentences doc rest e
      if sentence = [] then r
      else (sentence :: r.1, (cur, s) :: r.2)

/-- The (redundant) final filtering loop of `_get_sentences`. -/
def filterPairs : List (List Char) → List (Nat × Nat) → List (List Char) × List (Nat × Nat)
  | s :: ss, sp :: sps =>
      let r := filterPairs ss sps
      if s = [] then r else (s :: r.1, sp :: r.2)
  | _, _ => ([], [])

/-- Model of `_get_sentences(document)`: sentence texts and their character spans. -/
def get_sentences (doc : List Char) : List (List Char) × List (Nat × Nat) :=
  if doc = [] then ([], [])
  else
    let bs := buildSentences doc (boundaryMatches doc) 0
    let f := filterPairs bs.1 bs.2
    if f.1 = [] then ([doc], [(0, doc.length)]) else f

/-- Resolution of one Python slice index: negative indices count from the end,
then the index is clamped to `[0, n]`. -/
def resolveIdx (n : Nat) (j : Int) : Nat :=
  min (if j < 0 then j + n else j).toNat n

/-- Python slice `l[a:b]` for arbitrary integer indices. -/
def pySlice {α : Type} (l : List α) (a b : Int) : List α :=
  (l.take (resolveIdx l.length b)).drop (resolveIdx l.length a)

/-- The overlap clamp at the top of `chunk_by_sentences`. -/
def clampOverlap (num_sentences overlap_sentences : Int) : Int :=
  if overlap_sentences ≥ num_sentences then num_sentences - 1 else overlap_sentences

/-- The `while i < len(sentences[0])` loop of `chunk_by_sentences`.  Each
iteration slices `num` spans starting at `i`, stops if the slice is empty, and
otherwise emits the chunk `document[start_char:end_char]` with its span and
advances `i` by `step = num_sentences - overlap_sentences` (which is at least 1
after clamping, see `one_le_step`).  Consequently the loop runs at most `n`
iterations; `fuel` is that bound, and `chunkLoop_fuel_irrelevant` shows any
sufficient fuel gives the same result. -/
def chunkLoop (doc : List Char) (spans : List (Nat × Nat)) (n : Nat) (num step : Int) :
    Int → Nat → List (List Char) × List (Nat × Nat)
  | _, 0 => ([], [])
  | i, fuel + 1 =>
      if i < (n : Int) then
        match pySlice spans i (i + num) with
        | [] => ([], [])
        | c :: cs =>
            let start_char := c.1
            let end_char := (cs.getLastD c).2
            let rest := chunkLoop doc spans n num step (i + step) fuel
            (sliceDoc doc start_char end_char :: rest.1, (start_char, end_char) :: rest.2)
      else ([], [])

/-- Model of `chunk_by_sentences(document, num_sentences, overlap_sentences)`. -/
def chunk_by_sentences (doc : List Char) (num_sentences overlap_sentences : Int) :
    List (List Char) × List (Nat × Nat) :=
  let overlap := clampOverlap num_sentences overlap_sentences
  let s := get_sentences doc
  chunkLoop doc s.2 s.1.length num_sentences (num_sentences - overlap) 0 s.1.length

/-- A sentence boundary in the sense of the segmenter regex: a whitespace
character whose immediately preceding character is a terminator. -/
def hasBoundary (doc : List Char) : Bool :=
  (List.range doc.length).any fun p =>
    decide (0 < p) && isTerm (doc.getD (p - 1) ' ') && isPySpace (doc.getD p ' ')

/-- The characters of `doc` in positions `[a, b)` are all whitespace. -/
def spaceGap (doc : List Char) (a b : Nat) : Bool :=
  (sliceDoc doc a b).all isPySpace

/-- The tiling property asserted by the specification for overlap-0 chunking:
the first span starts at `pos`, each span starts where the previous one ends,
and the last span ends at `len`. -/
def tileChain : Nat → List (Nat × Nat) → Nat → Bool
  | pos, [], len => pos = len
  | pos, (a, b) :: rest, len => a = pos && tileChain b rest len

/-- Spans exactly tile the interval `[0, len)`. -/
def spansTile (spans : List (Nat × Nat)) (len : Nat) : Bool :=
  tileChain 0 spans len

end ExampleData

namespace ExampleData

theorem isTerm_not_space (c : Char) (h : isTerm c = true) : isPySpace c = false := by
  simp only [isTerm, Bool.or_eq_true, decide_eq_true_eq] at h
  rcases h with (h | h) | h <;> subst h <;> decide

theorem strip_eq_nil_iff (l : List Char) : strip l = [] ↔ l.all isPySpace = true := by
  unfold strip
  constructor
  · intro h
    rw [List.reverse_eq_nil_iff, List.dropWhile_eq_nil_iff] at h
    rw [List.all_eq_true]
    intro x hx
    rw [← List.takeWhile_append_dropWhile isPySpace l] at hx
    rcases List.mem_append.mp hx with h1 | h2
    · exact List.mem_takeWhile_imp h1
    · exact h x (List.mem_reverse.mpr h2)
  · intro h
    have hd : l.dropWhile isPySpace = [] := by
      rw [List.dropWhile_eq_nil_iff]
      exact fun x hx => (List.all_eq_true.mp h) x hx
    rw [hd]
    simp

theorem strip_ne_nil (l : List Char) (c : Char) (hc : c ∈ l) (hns : isPySpace c = false) :
    strip l ≠ [] := by
  intro h
  have hall := (strip_eq_nil_iff l).mp h
  rw [List.all_eq_true] at hall
  have := hall c hc
  rw [hns] at this
  exact Bool.false_ne_true this

theorem strip_arg_ne_nil (l : List Char) (h : strip l ≠ []) : l ≠ [] := by
  intro hl
  subst hl
  exact h rfl

theorem slice_getElem (l : List Char) (a b i : Nat) :
    (sliceDoc l a b)[i]? = if a + i < b then l[a + i]? else none := by
  unfold sliceDoc
  rw [List.getElem?_drop, List.getElem?_take]

theorem getD_mem_slice (l : List Char) (a b j : Nat) (d : Char)
    (h1 : a ≤ j) (h2 : j < b) (h3 : j < l.length) : l.getD j d ∈ sliceDoc l a b := by
  have h4 : (sliceDoc l a b)[j - a]? = some l[j] := by
    rw [slice_getElem]
    rw [if_pos (by omega)]
    have hja : a + (j - a) = j := by omega
    rw [hja, List.getElem?_eq_getElem h3]
  have hmem : l[j] ∈ sliceDoc l a b := by
    obtain ⟨hlt, heq⟩ := List.getElem?_eq_some.mp h4
    rw [← heq]
    exact List.getElem_mem hlt
  have hgd : l.getD j d = l[j] := by
    rw [List.getD_eq_getElem?_getD, List.getElem?_eq_getElem h3]
    rfl
  rw [hgd]
  exact hmem

theorem spaceGap_iff (doc : List Char) (a b : Nat) :
    spaceGap doc a b = true ↔ ∀ j, a ≤ j → j < b → isPySpace (doc.getD j ' ') = true := by
  unfold spaceGap
  rw [List.all_eq_true]
  constructor
  · intro h j h1 h2
    by_cases hj : j < doc.length
    · exact h _ (getD_mem_slice doc a b j ' ' h1 h2 hj)
    · rw [List.getD_eq_getElem?_getD, List.getElem?_eq_none (by omega)]
      decide
  · intro h x hx
    obtain ⟨i, hi⟩ := List.mem_iff_getElem?.mp hx
    rw [slice_getElem] at hi
    by_cases hib : a + i < b
    · rw [if_pos hib] at hi
      obtain ⟨hlt, heq⟩ := List.getElem?_eq_some.mp hi
      have hx' : x = doc.getD (a + i) ' ' := by
        rw [List.getD_eq_getElem?_getD, List.getElem?_eq_getElem hlt, ← heq]
        rfl
      rw [hx']
      exact h (a + i) (by omega) hib
    · rw [if_neg hib] at hi
      exact absurd hi (by simp)

theorem spaceGap_trans (doc : List Char) (a b c : Nat)
    (h1 : spaceGap doc a b = true) (h2 : spaceGap doc b c = true) :
    spaceGap doc a c = true := by
  rw [spaceGap_iff] at h1 h2 ⊢
  intro j hj1 hj2
  by_cases hb : j < b
  · exact h1 j hj1 hb
  · exact h2 j (by omega) hj2

theorem getLastD_eq_getD {α : Type} (l : List α) (d : α) :
    l.getLastD d = l.getD (l.length - 1) d := by
  rw [List.getLastD_eq_getLast?, List.getLast?_eq_getElem?, List.getD_eq_getElem?_getD]

theorem getLastD_irrel {α : Type} (l : List α) (d e : α) (h : l ≠ []) :
    l.getLastD d = l.getLastD e := by
  rw [List.getLastD_eq_getLast?, List.getLastD_eq_getLast?,
    List.getLast?_eq_getLast l h]
  rfl

theorem slice_parts {α : Type} (l : List α) (a b : Nat) (d : α)
    (hab : a < b) (hb : b ≤ l.length) :
    (l.take b).drop a ≠ [] ∧ ((l.take b).drop a).headD d = l.getD a d ∧
      ((l.take b).drop a).getLastD d = l.getD (b - 1) d := by
  have hlen : ((l.take b).drop a).length = b - a := by
    rw [List.length_drop, List.length_take]
    omega
  have hne : (l.take b).drop a ≠ [] := by
    intro h
    rw [h] at hlen
    simp at hlen
    omega
  refine ⟨hne, ?_, ?_⟩
  · rw [List.headD_eq_head?_getD, List.head?_eq_getElem?, List.getElem?_drop,
      List.getElem?_take, if_pos (by omega), List.getD_eq_getElem?_getD,
      Nat.add_zero]
  · rw [getLastD_eq_getD, hlen, List.getD_eq_getElem?_getD, List.getElem?_drop,
      List.getElem?_take, if_pos (by omega), List.getD_eq_getElem?_getD]
    have hidx : a + (b - a - 1) = b - 1 := by omega
    rw [hidx]

end ExampleData

namespace ExampleData

/-- Well-formedness of a list of regex matches starting at or after `lo`: each
match `(s, e)` lies after a terminator, covers only whitespace, is nonempty, in
bounds, and the next matches start at or after `e`. -/
def MatchesOK (doc : List Char) : Nat → List (Nat × Nat) → Prop
  | _, [] => True
  | lo, (s, e) :: rest =>
      lo ≤ s ∧ 0 < s ∧ s < e ∧ e ≤ doc.length ∧
      isTerm (doc.getD (s - 1) ' ') = true ∧
      (∀ j, s ≤ j → j < e → isPySpace (doc.getD j ' ') = true) ∧
      MatchesOK doc e rest

theorem MatchesOK_mono (doc : List Char) (a b : Nat) (hab : a ≤ b) (ms : List (Nat × Nat))
    (h : MatchesOK doc b ms) : MatchesOK doc a ms := by
  cases ms with
  | nil => trivial
  | cons m rest =>
    cases m with
    | mk s e =>
      simp only [MatchesOK] at h ⊢
      exact ⟨by omega, h.2⟩

theorem drop_cons_facts (doc : List Char) (pos : Nat) (c : Char) (rest : List Char)
    (h : doc.drop pos = c :: rest) :
    pos < doc.length ∧ doc.getD pos ' ' = c ∧ doc.drop (pos + 1) = rest := by
  have hlen : doc.length - pos = (c :: rest).length := by rw [← List.length_drop, h]
  have hpos : pos < doc.length := by
    simp only [List.length_cons] at hlen
    omega
  refine ⟨hpos, ?_, ?_⟩
  · have h0 : (doc.drop pos)[0]? = some c := by rw [h]; simp
    rw [List.getElem?_drop, Nat.add_zero] at h0
    rw [List.getD_eq_getElem?_getD, h0]
    rfl
  · have hd : doc.drop (pos + 1) = (doc.drop pos).drop 1 := by
      rw [List.drop_drop]
    rw [hd, h]
    rfl

theorem scanRuns_ok (doc : List Char) :
    ∀ (l : List Char) (prevTerm : Bool) (pos : Nat) (runStart : Option Nat),
    l = doc.drop pos → pos ≤ doc.length →
    (prevTerm = true → 0 < pos ∧ isTerm (doc.getD (pos - 1) ' ') = true) →
    (∀ s, runStart = some s →
      0 < s ∧ s < pos ∧ isTerm (doc.getD (s - 1) ' ') = true ∧
      (∀ j, s ≤ j → j < pos → isPySpace (doc.getD j ' ') = true)) →
    MatchesOK doc (match runStart with | some s => s | none => pos)
      (scanRuns l prevTerm pos runStart) := by
  intro l
  induction l with
  | nil =>
    intro prevTerm pos runStart hdrop hpos _ hrun
    have hlen : doc.length ≤ pos := by
      have hl := congrArg List.length hdrop
      simp only [List.length_nil, List.length_drop] at hl
      omega
    have hpe : pos = doc.length := by omega
    cases runStart with
    | none => simp [scanRuns, MatchesOK]
    | some s =>
      obtain ⟨hs0, hslt, hterm, hws⟩ := hrun s rfl
      simp only [scanRuns, MatchesOK]
      exact ⟨le_refl s, hs0, hslt, by omega, hterm, fun j h1 h2 => hws j h1 h2, trivial⟩
  | cons c rest ih =>
    intro prevTerm pos runStart hdrop hpos hprev hrun
    obtain ⟨hposlt, hc, hrest⟩ := drop_cons_facts doc pos c rest hdrop.symm
    have hprev' : isTerm c = true → 0 < pos + 1 ∧ isTerm (doc.getD (pos + 1 - 1) ' ') = true := by
      intro h
      refine ⟨by omega, ?_⟩
      have he : pos + 1 - 1 = pos := by omega
      rw [he, hc]
      exact h
    cases runStart with
    | some s =>
      obtain ⟨hs0, hslt, hterm, hws⟩ := hrun s rfl
      by_cases hsp : isPySpace c = true
      · simp only [scanRuns, if_pos hsp]
        have hrec := ih (isTerm c) (pos + 1) (some s) hrest.symm (by omega) hprev'
          (fun s' hs' => by
            cases hs'
            refine ⟨hs0, by omega, hterm, ?_⟩
            intro j h1 h2
            by_cases hj : j < pos
            · exact hws j h1 hj
            · have hje : j = pos := by omega
              rw [hje, hc]
              exact hsp)
        exact hrec
      · simp only [scanRuns, if_neg hsp]
        simp only [MatchesOK]
        refine ⟨le_refl s, hs0, hslt, by omega, hterm, fun j h1 h2 => hws j h1 h2, ?_⟩
        have hrec := ih (isTerm c) (pos + 1) none hrest.symm (by omega) hprev'
          (fun s' hs' => by cases hs')
        exact MatchesOK_mono doc pos (pos + 1) (by omega) _ hrec
    | none =>
      by_cases hcond : (prevTerm && isPySpace c) = true
      · rw [Bool.and_eq_true] at hcond
        obtain ⟨hpt, hcs⟩ := hcond
        obtain ⟨hpos0, hterm⟩ := hprev hpt
        simp only [scanRuns, if_pos (Bool.and_eq_true prevTerm (isPySpace c) |>.mpr ⟨hpt, hcs⟩)]
        have hrec := ih (isTerm c) (pos + 1) (some pos) hrest.symm (by omega) hprev'
          (fun s' hs' => by
            cases hs'
            refine ⟨hpos0, by omega, hterm, ?_⟩
            intro j h1 h2
            have hje : j = pos := by omega
            rw [hje, hc]
            exact hcs)
        exact hrec
      · simp only [scanRuns, if_neg hcond]
        have hrec := ih (isTerm c) (pos + 1) none hrest.symm (by omega) hprev'
          (fun s' hs' => by cases hs')
        exact MatchesOK_mono doc pos (pos + 1) (by omega) _ hrec

theorem boundaryMatches_ok (doc : List Char) : MatchesOK doc 0 (boundaryMatches doc) := by
  unfold boundaryMatches
  have h := scanRuns_ok doc doc false 0 none (by simp) (by omega)
    (fun h => by cases h) (fun s hs => by cases hs)
  exact h

theorem hasBoundary_intro (doc : List Char) (p : Nat) (h0 : 0 < p) (hlt : p < doc.length)
    (ht : isTerm (doc.getD (p - 1) ' ') = true) (hs : isPySpace (doc.getD p ' ') = true) :
    hasBoundary doc = true := by
  unfold hasBoundary
  rw [List.any_eq_true]
  refine ⟨p, List.mem_range.mpr hlt, ?_⟩
  rw [Bool.and_eq_true, Bool.and_eq_true]
  exact ⟨⟨by simpa using h0, ht⟩, hs⟩

theorem scanRuns_empty_of_noBoundary (doc : List Char) (hnb : hasBoundary doc = false) :
    ∀ (l : List Char) (prevTerm : Bool) (pos : Nat),
    l = doc.drop pos →
    (prevTerm = true → 0 < pos ∧ isTerm (doc.getD (pos - 1) ' ') = true) →
    scanRuns l prevTerm pos none = [] := by
  intro l
  induction l with
  | nil => intro prevTerm pos _ _; simp [scanRuns]
  | cons c rest ih =>
    intro prevTerm pos hdrop hprev
    obtain ⟨hposlt, hc, hrest⟩ := drop_cons_facts doc pos c rest hdrop.symm
    by_cases hcond : (prevTerm && isPySpace c) = true
    · exfalso
      rw [Bool.and_eq_true] at hcond
      obtain ⟨hpt, hcs⟩ := hcond
      obtain ⟨hp0, ht⟩ := hprev hpt
      have hb := hasBoundary_intro doc pos hp0 hposlt ht (by rw [hc]; exact hcs)
      rw [hnb] at hb
      exact Bool.false_ne_true hb
    · simp only [scanRuns, if_neg hcond]
      apply ih (isTerm c) (pos + 1) hrest.symm
      intro h
      refine ⟨by omega, ?_⟩
      have he : pos + 1 - 1 = pos := by omega
      rw [he, hc]
      exact h

theorem boundaryMatches_empty_of_noBoundary (doc : List Char) (hnb : hasBoundary doc = false) :
    boundaryMatches doc = [] := by
  unfold boundaryMatches
  exact scanRuns_empty_of_noBoundary doc hnb doc false 0 (by simp) (fun h => by cases h)

theorem ne_nil_of_hasBoundary (doc : List Char) (h : hasBoundary doc = true) : doc ≠ [] := by
  intro he
  subst he
  simp [hasBoundary] at h

end ExampleData

namespace ExampleData

/-- Relation between consecutive spans: the next span starts at or after the
end of the previous one and the gap between them contains only whitespace. -/
def gapOK (doc : List Char) (x y : Nat × Nat) : Prop :=
  x.2 ≤ y.1 ∧ spaceGap doc x.2 y.1 = true

theorem buildSentences_spec (doc : List Char) :
    ∀ (ms : List (Nat × Nat)) (cur : Nat) (ss : List (List Char)) (L : List (Nat × Nat)),
    MatchesOK doc cur ms → cur ≤ doc.length →
    (cur = 0 ∨ (0 < cur ∧ isPySpace (doc.getD (cur - 1) ' ') = true)) →
    buildSentences doc ms cur = (ss, L) →
    ss.length = L.length ∧
    (∀ t ∈ ss, t ≠ []) ∧
    (∀ z ∈ L, cur ≤ z.1 ∧ z.1 < z.2 ∧ z.2 ≤ doc.length) ∧
    List.Chain' (gapOK doc) L ∧
    (L = [] → spaceGap doc cur doc.length = true) ∧
    (ms ≠ [] → L ≠ []) ∧
    (L ≠ [] →
      (L.headD (0, 0)).1 = cur ∧
      ((L.getLastD (0, 0)).2 = doc.length ∨
        ((L.getLastD (0, 0)).2 ≤ doc.length ∧
          spaceGap doc (L.getLastD (0, 0)).2 doc.length = true))) := by
  intro ms
  induction ms with
  | nil =>
    intro cur ss L _ hcur _ heq
    simp only [buildSentences] at heq
    by_cases hrem : strip (doc.drop cur) = []
    · rw [if_pos hrem] at heq
      injection heq with h1 h2
      subst h1
      subst h2
      refine ⟨rfl, ?_, ?_, ?_, ?_, ?_, ?_⟩
      · intro t ht; cases ht
      · intro z hz; cases hz
      · exact List.chain'_nil
      · intro _
        unfold spaceGap sliceDoc
        rw [List.take_length]
        exact (strip_eq_nil_iff _).mp hrem
      · intro h; exact absurd rfl h
      · intro h; exact absurd rfl h
    · rw [if_neg hrem] at heq
      injection heq with h1 h2
      subst h1
      subst h2
      have hlt : cur < doc.length := by
        have hne := strip_arg_ne_nil _ hrem
        by_contra hge
        have : doc.drop cur = [] := List.drop_eq_nil_of_le (by omega)
        exact hne this
      refine ⟨rfl, ?_, ?_, ?_, ?_, ?_, ?_⟩
      · intro t ht
        rw [List.mem_singleton] at ht
        subst ht
        exact hrem
      · intro z hz
        rw [List.mem_singleton] at hz
        subst hz
        exact ⟨le_refl cur, hlt, le_refl _⟩
      · exact List.chain'_singleton _
      · intro h; cases h
      · intro _ h; cases h
      · intro _
        exact ⟨rfl, Or.inl rfl⟩
  | cons m rest ih =>
    intro cur ss L hok hcur hgood heq
    obtain ⟨s, e⟩ := m
    simp only [MatchesOK] at hok
    obtain ⟨hcs, hs0, hse, hel, hterm, hws, hrest⟩ := hok
    have hcls : cur < s := by
      rcases hgood with rfl | ⟨hc0, hcsp⟩
      · exact hs0
      · rcases Nat.lt_or_ge cur s with h | h
        · exact h
        · exfalso
          have hcse : cur = s := by omega
          subst hcse
          have := isTerm_not_space _ hterm
          rw [this] at hcsp
          exact Bool.false_ne_true hcsp
    have hs1len : s - 1 < doc.length := by omega
    have hsent : strip (sliceDoc doc cur s) ≠ [] := by
      apply strip_ne_nil _ (doc.getD (s - 1) ' ')
      · exact getD_mem_slice doc cur s (s - 1) ' ' (by omega) (by omega) hs1len
      · exact isTerm_not_space _ hterm
    simp only [buildSentences] at heq
    rw [if_neg hsent] at heq
    have hgood' : e = 0 ∨ (0 < e ∧ isPySpace (doc.getD (e - 1) ' ') = true) := by
      right
      exact ⟨by omega, hws (e - 1) (by omega) (by omega)⟩
    have ihr := ih e (buildSentences doc rest e).1 (buildSentences doc rest e).2
      hrest hel hgood' rfl
    obtain ⟨ihlen, ihne, ihbounds, ihchain, ihempty, _, ihlast⟩ := ihr
    injection heq with h1 h2
    subst h1
    subst h2
    have hsgap : spaceGap doc s e = true := by
      rw [spaceGap_iff]
      intro j h1 h2
      exact hws j h1 h2
    refine ⟨?_, ?_, ?_, ?_, ?_, ?_, ?_⟩
    · simp only [List.length_cons]
      omega
    · intro t ht
      rcases List.mem_cons.mp ht with rfl | h2
      · exact hsent
      · exact ihne t h2
    · intro z hz
      rcases List.mem_cons.mp hz with rfl | h2
      · exact ⟨le_refl cur, hcls, by omega⟩
      · have := ihbounds z h2
        exact ⟨by omega, this.2.1, this.2.2⟩
    · rw [List.chain'_cons']
      constructor
      · intro y hy
        have hL2ne : (buildSentences doc rest e).2 ≠ [] := by
          intro hnil
          rw [hnil] at hy
          cases hy
        have hhead := (ihlast hL2ne).1
        have hyv : y = (buildSentences doc rest e).2.headD (0, 0) := by
          rw [List.headD_eq_head?_getD, hy]
          rfl
        constructor
        · show s ≤ y.1
          rw [hyv, hhead]
          omega
        · show spaceGap doc s y.1 = true
          rw [hyv, hhead]
          exact hsgap
      · exact ihchain
    · intro h; cases h
    · intro _ h; cases h
    · intro _
      refine ⟨rfl, ?_⟩
      cases hL2 : (buildSentences doc rest e).2 with
      | nil =>
        have hv : ([(cur, s)].getLastD (0, 0)) = (cur, s) := rfl
        rw [hv]
        right
        refine ⟨by omega, ?_⟩
        have hegap := ihempty hL2
        exact spaceGap_trans doc s e doc.length hsgap hegap
      | cons y ys =>
        have hne' : y :: ys ≠ ([] : List (Nat × Nat)) := by intro h; cases h
        rw [List.getLastD_cons, getLastD_irrel _ _ (0, 0) hne']
        have hres := (ihlast (by rw [hL2]; exact hne')).2
        rw [hL2] at hres
        exact hres

end ExampleData

namespace ExampleData

theorem filterPairs_id : ∀ (ss : List (List Char)) (L : List (Nat × Nat)),
    ss.length = L.length → (∀ t ∈ ss, t ≠ []) → filterPairs ss L = (ss, L) := by
  intro ss
  induction ss with
  | nil =>
    intro L hlen _
    cases L with
    | nil => rfl
    | cons y ys => simp at hlen
  | cons t ts ih =>
    intro L hlen hne
    cases L with
    | nil => simp at hlen
    | cons sp sps =>
      simp only [filterPairs]
      rw [ih sps (by simpa using hlen) (fun x hx => hne x (List.mem_cons_of_mem _ hx))]
      rw [if_neg (hne t (List.mem_cons_self _ _))]

theorem get_sentences_eq (doc : List Char) (hne : doc ≠ []) :
    get_sentences doc =
      if (buildSentences doc (boundaryMatches doc) 0).1 = []
      then ([doc], [(0, doc.length)])
      else buildSentences doc (boundaryMatches doc) 0 := by
  obtain ⟨hlen, htne, _⟩ := buildSentences_spec doc (boundaryMatches doc) 0
    (buildSentences doc (boundaryMatches doc) 0).1
    (buildSentences doc (boundaryMatches doc) 0).2
    (boundaryMatches_ok doc) (by omega) (Or.inl rfl) rfl
  unfold get_sentences
  rw [if_neg hne]
  show (if (filterPairs (buildSentences doc (boundaryMatches doc) 0).1
      (buildSentences doc (boundaryMatches doc) 0).2).1 = []
    then ([doc], [(0, doc.length)])
    else filterPairs (buildSentences doc (boundaryMatches doc) 0).1
      (buildSentences doc (boundaryMatches doc) 0).2) = _
  rw [filterPairs_id _ _ hlen htne]

theorem get_sentences_spec (doc : List Char) (hne : doc ≠ []) :
    (get_sentences doc).1.length = (get_sentences doc).2.length ∧
    (get_sentences doc).2 ≠ [] ∧
    ((get_sentences doc).2.headD (0, 0)).1 = 0 ∧
    (∀ z ∈ (get_sentences doc).2, z.1 < z.2 ∧ z.2 ≤ doc.length) ∧
    List.Chain' (gapOK doc) (get_sentences doc).2 ∧
    (((get_sentences doc).2.getLastD (0, 0)).2 = doc.length ∨
      (((get_sentences doc).2.getLastD (0, 0)).2 ≤ doc.length ∧
        spaceGap doc ((get_sentences doc).2.getLastD (0, 0)).2 doc.length = true)) := by
  obtain ⟨hlen, htne, hbounds, hchain, hempty, _, hlast⟩ :=
    buildSentences_spec doc (boundaryMatches doc) 0
      (buildSentences doc (boundaryMatches doc) 0).1
      (buildSentences doc (boundaryMatches doc) 0).2
      (boundaryMatches_ok doc) (by omega) (Or.inl rfl) rfl
  rw [get_sentences_eq doc hne]
  by_cases hb1 : (buildSentences doc (boundaryMatches doc) 0).1 = []
  · rw [if_pos hb1]
    have hdlen : 0 < doc.length := List.length_pos.mpr hne
    refine ⟨rfl, ?_, rfl, ?_, List.chain'_singleton _, Or.inl rfl⟩
    · intro h
      cases h
    · intro z hz
      rw [List.mem_singleton] at hz
      subst hz
      exact ⟨hdlen, le_refl _⟩
  · rw [if_neg hb1]
    have hb2 : (buildSentences doc (boundaryMatches doc) 0).2 ≠ [] := by
      intro h2
      apply hb1
      have : (buildSentences doc (boundaryMatches doc) 0).1.length = 0 := by
        rw [hlen, h2]
        rfl
      exact List.length_eq_zero.mp this
    obtain ⟨hhead, hlast2⟩ := hlast hb2
    refine ⟨hlen, hb2, hhead, ?_, hchain, hlast2⟩
    intro z hz
    exact ⟨(hbounds z hz).2.1, (hbounds z hz).2.2⟩

end ExampleData

namespace ExampleData

theorem one_le_step (num ov : Int) : 1 ≤ num - clampOverlap num ov := by
  unfold clampOverlap
  split <;> omega

theorem chunkLoop_stop (doc : List Char) (S : List (Nat × Nat)) (n : Nat) (num step i : Int)
    (h : ¬ i < (n : Int)) : ∀ fuel, chunkLoop doc S n num step i fuel = ([], []) := by
  intro fuel
  cases fuel with
  | zero => rfl
  | succ f =>
    simp only [chunkLoop]
    rw [if_neg h]

theorem chunkLoop_length (doc : List Char) (S : List (Nat × Nat)) (n : Nat) (num step : Int) :
    ∀ (fuel : Nat) (i : Int), (chunkLoop doc S n num step i fuel).1.length ≤ fuel := by
  intro fuel
  induction fuel with
  | zero => intro i; exact Nat.le_refl 0
  | succ f ih =>
    intro i
    simp only [chunkLoop]
    by_cases hi : i < (n : Int)
    · rw [if_pos hi]
      cases hcs : pySlice S i (i + num) with
      | nil => exact Nat.zero_le _
      | cons c cs =>
        simp only [List.length_cons]
        have := ih (i + step)
        omega
    · rw [if_neg hi]
      exact Nat.zero_le _

theorem chunkLoop_fuel_irrelevant (doc : List Char) (S : List (Nat × Nat)) (n : Nat)
    (num step : Int) (hstep : 1 ≤ step) :
    ∀ (f1 : Nat) (f2 : Nat) (i : Int), ((n : Int) - i).toNat ≤ f1 → ((n : Int) - i).toNat ≤ f2 →
    chunkLoop doc S n num step i f1 = chunkLoop doc S n num step i f2 := by
  intro f1
  induction f1 with
  | zero =>
    intro f2 i h1 h2
    have hni : ¬ i < (n : Int) := by omega
    rw [chunkLoop_stop doc S n num step i hni 0, chunkLoop_stop doc S n num step i hni f2]
  | succ f ih =>
    intro f2 i h1 h2
    by_cases hi : i < (n : Int)
    · have hf2 : ∃ f2', f2 = f2' + 1 := by
        cases f2 with
        | zero => exfalso; omega
        | succ f2' => exact ⟨f2', rfl⟩
      obtain ⟨f2', rfl⟩ := hf2
      simp only [chunkLoop]
      rw [if_pos hi, if_pos hi]
      cases hcs : pySlice S i (i + num) with
      | nil => rfl
      | cons c cs =>
        have hrec := ih f2' (i + step) (by omega) (by omega)
        rw [hrec]
    · rw [chunkLoop_stop doc S n num step i hi (f + 1), chunkLoop_stop doc S n num step i hi f2]

theorem resolveIdx_nonneg (n : Nat) (j : Int) (hj : 0 ≤ j) : resolveIdx n j = min j.toNat n := by
  unfold resolveIdx
  rw [if_neg (by omega)]

theorem pySlice_nat (S : List (Nat × Nat)) (i : Nat) (num : Int) (hnum : 0 ≤ num) :
    pySlice S (i : Int) ((i : Int) + num) =
      (S.take (min (i + num.toNat) S.length)).drop (min i S.length) := by
  unfold pySlice
  rw [resolveIdx_nonneg _ _ (by omega), resolveIdx_nonneg _ _ (by omega)]
  have h1 : ((i : Int)).toNat = i := by omega
  have h2 : ((i : Int) + num).toNat = i + num.toNat := by omega
  rw [h1, h2]

end ExampleData

namespace ExampleData

theorem chunkLoop_overlap0 (doc : List Char) (S : List (Nat × Nat)) (num : Int) (hnum : 1 ≤ num)
    (hchain : ∀ k, k + 1 < S.length → (S.getD k (0, 0)).2 ≤ (S.getD (k + 1) (0, 0)).1 ∧
        spaceGap doc (S.getD k (0, 0)).2 (S.getD (k + 1) (0, 0)).1 = true) :
    ∀ (fuel i : Nat), i < S.length → S.length - i ≤ fuel →
    (chunkLoop doc S S.length num num (i : Int) fuel).2 ≠ [] ∧
    (chunkLoop doc S S.length num num (i : Int) fuel).2.headD (0, 0) =
      ((S.getD i (0, 0)).1, (S.getD (min (i + num.toNat) S.length - 1) (0, 0)).2) ∧
    List.Chain' (gapOK doc) (chunkLoop doc S S.length num num (i : Int) fuel).2 ∧
    ((chunkLoop doc S S.length num num (i : Int) fuel).2.getLastD (0, 0)).2 =
      (S.getD (S.length - 1) (0, 0)).2 := by
  intro fuel
  induction fuel with
  | zero =>
    intro i hi hf
    exfalso
    omega
  | succ f ih =>
    intro i hi hf
    have hsl := pySlice_nat S i num (by omega)
    have hmin_i : min i S.length = i := by omega
    rw [hmin_i] at hsl
    have hib' : i < min (i + num.toNat) S.length := by
      have h1 : 1 ≤ num.toNat := by omega
      omega
    have hb'le : min (i + num.toNat) S.length ≤ S.length := by omega
    obtain ⟨hne, hhead, hlast⟩ := slice_parts S i (min (i + num.toNat) S.length) (0, 0) hib' hb'le
    cases hcs : (S.take (min (i + num.toNat) S.length)).drop i with
    | nil => exact absurd hcs hne
    | cons c cs =>
      have heq : chunkLoop doc S S.length num num (i : Int) (f + 1) =
          (sliceDoc doc c.1 (cs.getLastD c).2 ::
              (chunkLoop doc S S.length num num ((i : Int) + num) f).1,
            (c.1, (cs.getLastD c).2) ::
              (chunkLoop doc S S.length num num ((i : Int) + num) f).2) := by
        simp only [chunkLoop]
        rw [if_pos (by exact_mod_cast hi), hsl, hcs]
      have hc : c = S.getD i (0, 0) := by
        rw [← hhead, hcs]
        rfl
      have hlastc : cs.getLastD c = S.getD (min (i + num.toNat) S.length - 1) (0, 0) := by
        rw [← hlast, hcs, List.getLastD_cons]
      rw [heq]
      by_cases hlt : i + num.toNat < S.length
      · have hcast : (i : Int) + num = ((i + num.toNat : Nat) : Int) := by omega
        rw [hcast]
        obtain ⟨ihne, ihhead, ihchain, ihlast2⟩ := ih (i + num.toNat) hlt (by omega)
        have hb'eq : min (i + num.toNat) S.length = i + num.toNat := by omega
        refine ⟨List.cons_ne_nil _ _, ?_, ?_, ?_⟩
        · show (c.1, (cs.getLastD c).2) = _
          rw [hlastc, hc]
        · rw [List.chain'_cons']
          refine ⟨?_, ihchain⟩
          intro y hy
          have hyne : (chunkLoop doc S S.length num num ((i + num.toNat : Nat) : Int) f).2 ≠ [] := by
            intro hnil
            rw [hnil] at hy
            cases hy
          have hyv : y = (chunkLoop doc S S.length num num ((i + num.toNat : Nat) : Int) f).2.headD (0, 0) := by
            rw [List.headD_eq_head?_getD, hy]
            rfl
          have hy1 : y.1 = (S.getD (i + num.toNat) (0, 0)).1 := by
            rw [hyv, ihhead]
          have hk := hchain (i + num.toNat - 1) (by omega)
          have hke : i + num.toNat - 1 + 1 = i + num.toNat := by
            have h1 : 1 ≤ num.toNat := by omega
            omega
          rw [hke] at hk
          constructor
          · show (c.1, (cs.getLastD c).2).2 ≤ y.1
            rw [hy1, hlastc, hb'eq]
            exact hk.1
          · show spaceGap doc (c.1, (cs.getLastD c).2).2 y.1 = true
            rw [hy1, hlastc, hb'eq]
            exact hk.2
        · rw [List.getLastD_cons, getLastD_irrel _ _ (0, 0) ihne]
          exact ihlast2
      · have hrest : chunkLoop doc S S.length num num ((i : Int) + num) f = ([], []) := by
          apply chunkLoop_stop
          omega
        rw [hrest]
        have hb'eq : min (i + num.toNat) S.length = S.length := by omega
        refine ⟨List.cons_ne_nil _ _, ?_, ?_, ?_⟩
        · show (c.1, (cs.getLastD c).2) = _
          rw [hlastc, hc]
        · exact List.chain'_singleton _
        · show ((cs.getLastD c)).2 = _
          rw [hlastc, hb'eq]

theorem chunkLoop_mono_starts (doc : List Char) (S : List (Nat × Nat)) (n : Nat)
    (num step : Int) (hstep : 1 ≤ step)
    (hsorted : ∀ p q, p ≤ q → q < S.length → (S.getD p (0, 0)).1 ≤ (S.getD q (0, 0)).1) :
    ∀ (fuel : Nat) (i : Int), 0 ≤ i →
    (∀ y ∈ (chunkLoop doc S n num step i fuel).2, ∃ p, p < S.length ∧ i ≤ (p : Int) ∧
      y.1 = (S.getD p (0, 0)).1) ∧
    List.Chain' (fun x y => x.1 ≤ y.1) (chunkLoop doc S n num step i fuel).2 := by
  intro fuel
  induction fuel with
  | zero =>
    intro i _
    exact ⟨fun y hy => absurd hy (by intro h; cases h), List.chain'_nil⟩
  | succ f ih =>
    intro i hi0
    by_cases hi : i < (n : Int)
    · cases hcs : pySlice S i (i + num) with
      | nil =>
        have heq : chunkLoop doc S n num step i (f + 1) = ([], []) := by
          simp only [chunkLoop]
          rw [if_pos hi, hcs]
        rw [heq]
        exact ⟨fun y hy => absurd hy (by intro h; cases h), List.chain'_nil⟩
      | cons c cs =>
        have heq : chunkLoop doc S n num step i (f + 1) =
            (sliceDoc doc c.1 (cs.getLastD c).2 ::
                (chunkLoop doc S n num step (i + step) f).1,
              (c.1, (cs.getLastD c).2) ::
                (chunkLoop doc S n num step (i + step) f).2) := by
          simp only [chunkLoop]
          rw [if_pos hi, hcs]
        have hra : resolveIdx S.length i = i.toNat ⊓ S.length := resolveIdx_nonneg _ _ hi0
        have hcs' : (S.take (resolveIdx S.length (i + num))).drop (resolveIdx S.length i) =
            c :: cs := hcs
        have hlen0 : (((S.take (resolveIdx S.length (i + num))).drop
            (resolveIdx S.length i)) : List (Nat × Nat)).length ≠ 0 := by
          rw [hcs']
          simp
        rw [List.length_drop, List.length_take] at hlen0
        have hrb_le : resolveIdx S.length (i + num) ≤ S.length := by
          unfold resolveIdx
          omega
        have hralt : resolveIdx S.length i < resolveIdx S.length (i + num) := by omega
        have hralen : resolveIdx S.length i < S.length := by omega
        obtain ⟨_, hhead, _⟩ := slice_parts S (resolveIdx S.length i)
          (resolveIdx S.length (i + num)) (0, 0) hralt hrb_le
        have hc : c = S.getD (resolveIdx S.length i) (0, 0) := by
          rw [← hhead, hcs']
          rfl
        have hraval : resolveIdx S.length i = i.toNat := by
          rw [hra] at hralen ⊢
          omega
        obtain ⟨ihmem, ihchain⟩ := ih (i + step) (by omega)
        rw [heq]
        constructor
        · intro y hy
          rcases List.mem_cons.mp hy with rfl | h2
          · refine ⟨i.toNat, ?_, by omega, ?_⟩
            · rw [← hraval]
              exact hralen
            · show c.1 = _
              rw [hc, hraval]
          · obtain ⟨p, hp, hip, hyp⟩ := ihmem y h2
            exact ⟨p, hp, by omega, hyp⟩
        · rw [List.chain'_cons']
          refine ⟨?_, ihchain⟩
          intro y hy
          obtain ⟨p, hp, hip, hyp⟩ := ihmem y (List.mem_of_mem_head? hy)
          show c.1 ≤ y.1
          rw [hc, hraval, hyp]
          apply hsorted
          · omega
          · exact hp
    · rw [chunkLoop_stop doc S n num step i hi (f + 1)]
      exact ⟨fun y hy => absurd hy (by intro h; cases h), List.chain'_nil⟩

end ExampleData

namespace ExampleData

theorem getD_eq_getElem {α : Type} (l : List α) (n : Nat) (d : α) (h : n < l.length) :
    l.getD n d = l[n] := by
  rw [List.getD_eq_getElem?_getD, List.getElem?_eq_getElem h]
  rfl

theorem mem_getD {α : Type} (l : List α) (n : Nat) (d : α) (h : n < l.length) :
    l.getD n d ∈ l := by
  rw [getD_eq_getElem l n d h]
  exact List.getElem_mem h

theorem getD_zero_eq_headD {α : Type} (l : List α) (d : α) : l.getD 0 d = l.headD d := by
  cases l <;> rfl

theorem chain'_getD {α : Type} (R : α → α → Prop) (l : List α) (d : α)
    (h : List.Chain' R l) : ∀ k, k + 1 < l.length → R (l.getD k d) (l.getD (k + 1) d) := by
  intro k hk
  rw [getD_eq_getElem l k d (by omega), getD_eq_getElem l (k + 1) d hk]
  have := List.chain'_iff_get.mp h k (by omega)
  simpa using this

theorem sorted_starts (doc : List Char) (S : List (Nat × Nat))
    (hchain : List.Chain' (gapOK doc) S) (hbounds : ∀ z ∈ S, z.1 < z.2) :
    ∀ p q, p ≤ q → q < S.length → (S.getD p (0, 0)).1 ≤ (S.getD q (0, 0)).1 := by
  have hstep : ∀ k, k + 1 < S.length → (S.getD k (0, 0)).1 < (S.getD (k + 1) (0, 0)).1 := by
    intro k hk
    have hg := chain'_getD (gapOK doc) S (0, 0) hchain k hk
    have hb := hbounds (S.getD k (0, 0)) (mem_getD S k (0, 0) (by omega))
    have := hg.1
    omega
  have hd : ∀ (dd p : Nat), p + dd < S.length →
      (S.getD p (0, 0)).1 ≤ (S.getD (p + dd) (0, 0)).1 := by
    intro dd
    induction dd with
    | zero => intro p _; exact le_refl _
    | succ m ih =>
      intro p hp
      have h1 := ih p (by omega)
      have h2 := hstep (p + m) (by omega)
      have he : p + m + 1 = p + (m + 1) := by omega
      rw [he] at h2
      omega
  intro p q hpq hq
  have he : q = p + (q - p) := by omega
  rw [he]
  exact hd (q - p) p (by omega)

end ExampleData

namespace ExampleData

/-- Claim C9: for every document and all integer arguments `num_sentences` and
`overlap_sentences`, the sequence of chunk spans emitted by
`chunk_by_sentences` is monotonically non-decreasing in its start offsets. -/
theorem claim_C9 (doc : List Char) (num ov : Int) :
    List.Chain' (fun x y => x.1 ≤ y.1) (chunk_by_sentences doc num ov).2 := by
  have hsorted : ∀ p q, p ≤ q → q < (get_sentences doc).2.length →
      ((get_sentences doc).2.getD p (0, 0)).1 ≤ ((get_sentences doc).2.getD q (0, 0)).1 := by
    by_cases hne : doc = []
    · subst hne
      intro p q _ hq
      rw [show get_sentences [] = ([], []) from rfl] at hq
      simp at hq
    · obtain ⟨_, _, _, G3, G2, _⟩ := get_sentences_spec doc hne
      exact sorted_starts doc _ G2 (fun z hz => (G3 z hz).1)
  have h := chunkLoop_mono_starts doc (get_sentences doc).2 (get_sentences doc).1.length
    num (num - clampOverlap num ov) (one_le_step num ov) hsorted
    (get_sentences doc).1.length 0 (by omega)
  exact h.2

/-- Claim C1 (counterexample): the spans of `chunk("A. B", 1, 0)` are
`[(0, 2), (3, 4)]`; the second span starts at 3, not at 2 where the first one
ends, so the spans do not exactly tile `[0, 4)` even though the document
contains a sentence boundary and `k = 1 ≥ 1`. -/
theorem claim_C1_counterexample :
    hasBoundary "A. B".data = true ∧ (1 : Int) ≥ 1 ∧
    spansTile (chunk_by_sentences "A. B".data 1 0).2 "A. B".data.length = false := by decide

/-- Claim C1 (amended): for every document with at least one sentence boundary
and every `k ≥ 1`, the spans emitted by `chunk(document, k, 0)` are in order:
the first span starts at 0; each subsequent span starts at or after the end of
the previous one with only whitespace between them (`gapOK`); and the last span
either ends at `len(document)` or is followed only by whitespace. -/
theorem claim_C1_amended (doc : List Char) (k : Int)
    (hb : hasBoundary doc = true) (hk : 1 ≤ k) :
    (chunk_by_sentences doc k 0).2 ≠ [] ∧
    ((chunk_by_sentences doc k 0).2.headD (0, 0)).1 = 0 ∧
    List.Chain' (gapOK doc) (chunk_by_sentences doc k 0).2 ∧
    (((chunk_by_sentences doc k 0).2.getLastD (0, 0)).2 = doc.length ∨
      spaceGap doc ((chunk_by_sentences doc k 0).2.getLastD (0, 0)).2 doc.length = true) := by
  have hne := ne_nil_of_hasBoundary doc hb
  obtain ⟨G0, G1ne, G1head, G3, G2, G4⟩ := get_sentences_spec doc hne
  have hclamp : clampOverlap k 0 = 0 := by
    unfold clampOverlap
    rw [if_neg (by omega)]
  have hchainIdx := chain'_getD (gapOK doc) (get_sentences doc).2 (0, 0) G2
  have hlenpos : 0 < (get_sentences doc).2.length := List.length_pos.mpr G1ne
  have hcl := chunkLoop_overlap0 doc (get_sentences doc).2 k hk
    (fun kk hkk => hchainIdx kk hkk) (get_sentences doc).2.length 0 hlenpos (by omega)
  have hchunk : chunk_by_sentences doc k 0 =
      chunkLoop doc (get_sentences doc).2 (get_sentences doc).2.length k k
        ((0 : Nat) : Int) (get_sentences doc).2.length := by
    show chunkLoop doc (get_sentences doc).2 (get_sentences doc).1.length k
        (k - clampOverlap k 0) 0 (get_sentences doc).1.length = _
    rw [hclamp, sub_zero, G0]
    norm_num
  rw [hchunk]
  obtain ⟨hne2, hhead, hchain, hlast⟩ := hcl
  refine ⟨hne2, ?_, hchain, ?_⟩
  · rw [hhead]
    show ((get_sentences doc).2.getD 0 (0, 0)).1 = 0
    rw [getD_zero_eq_headD]
    exact G1head
  · rw [hlast, ← getLastD_eq_getD]
    rcases G4 with h | h
    · left
      exact h
    · right
      exact h.2

/-- Claim C2: `chunk("A. B. C.", 2, 1)` produces overlapping windows.  The
sentences are `A.`, `B.`, `C.` with spans `(0,2)`, `(3,5)`, `(6,8)`; the first
chunk is `A. B.` (sentences A and B), the second chunk is `B. C.` (sentences B
and C, overlapping the first in sentence B); a third window `C.` follows, as
the loop stops only when the window start reaches the end of the sentence
sequence.  Every chunk text is the exact slice of the input at its span. -/
theorem claim_C2 :
    get_sentences "A. B. C.".data =
      (["A.".data, "B.".data, "C.".data], [(0, 2), (3, 5), (6, 8)]) ∧
    chunk_by_sentences "A. B. C.".data 2 1 =
      (["A. B.".data, "B. C.".data, "C.".data], [(0, 5), (3, 8), (6, 8)]) ∧
    (chunk_by_sentences "A. B. C.".data 2 1).1 =
      (chunk_by_sentences "A. B. C.".data 2 1).2.map
        (fun z => sliceDoc "A. B. C.".data z.1 z.2) := by decide

/-- Witness for `claim_C1_amended` at `doc = "A. B"`, `k = 1`. -/
theorem claim_C1_witness :
    hasBoundary "A. B".data = true ∧ (1 : Int) ≤ 1 ∧
    ((chunk_by_sentences "A. B".data 1 0).2 ≠ [] ∧
      ((chunk_by_sentences "A. B".data 1 0).2.headD (0, 0)).1 = 0 ∧
      List.Chain' (gapOK "A. B".data) (chunk_by_sentences "A. B".data 1 0).2 ∧
      (((chunk_by_sentences "A. B".data 1 0).2.getLastD (0, 0)).2 = "A. B".data.length ∨
        spaceGap "A. B".data ((chunk_by_sentences "A. B".data 1 0).2.getLastD (0, 0)).2
          "A. B".data.length = true)) :=
  ⟨by decide, by decide, claim_C1_amended "A. B".data 1 (by decide) (by decide)⟩

end ExampleData

namespace ExampleData

/-- Claim C7: the chunker is a total function (it is defined for every input in
this embedding, so it never raises), and for every nonempty document with no
sentence boundary and every `num_sentences ≥ 1` (any overlap), the result is a
single chunk whose text is the whole document and whose span is
`(0, len(document))`. -/
theorem claim_C7 (doc : List Char) (num ov : Int) (h1 : doc ≠ [])
    (h2 : hasBoundary doc = false) (h3 : 1 ≤ num) :
    chunk_by_sentences doc num ov = ([doc], [(0, doc.length)]) := by
  have hbm := boundaryMatches_empty_of_noBoundary doc h2
  have hgeq := get_sentences_eq doc h1
  rw [hbm] at hgeq
  have hgs : ∃ ss : List (List Char), ss.length = 1 ∧
      get_sentences doc = (ss, [(0, doc.length)]) := by
    by_cases hstr : strip (doc.drop 0) = []
    · have hbuild : buildSentences doc [] 0 = ([], []) := by
        simp only [buildSentences]
        rw [if_pos hstr]
      rw [hbuild] at hgeq
      exact ⟨[doc], rfl, by rw [hgeq]; rfl⟩
    · have hbuild : buildSentences doc [] 0 =
          ([strip (doc.drop 0)], [(0, doc.length)]) := by
        simp only [buildSentences]
        rw [if_neg hstr]
      rw [hbuild] at hgeq
      refine ⟨[strip (doc.drop 0)], rfl, ?_⟩
      rw [hgeq]
      rw [if_neg (by simp : ¬ (([strip (doc.drop 0)], [(0, doc.length)]) :
        List (List Char) × List (Nat × Nat)).1 = [])]
  obtain ⟨ss, hsslen, hgsv⟩ := hgs
  have hchunk : chunk_by_sentences doc num ov =
      chunkLoop doc [(0, doc.length)] 1 num (num - clampOverlap num ov) 0 1 := by
    show chunkLoop doc (get_sentences doc).2 (get_sentences doc).1.length num
        (num - clampOverlap num ov) 0 (get_sentences doc).1.length = _
    rw [hgsv]
    show chunkLoop doc [(0, doc.length)] ss.length num
        (num - clampOverlap num ov) 0 ss.length = _
    rw [hsslen]
  rw [hchunk]
  have h1idx : resolveIdx (List.length [((0 : Nat), doc.length)]) (0 : Int) = 0 := by
    unfold resolveIdx
    simp
  have h2idx : resolveIdx (List.length [((0 : Nat), doc.length)]) ((0 : Int) + num) = 1 := by
    unfold resolveIdx
    rw [if_neg (by omega)]
    simp only [List.length_cons, List.length_nil]
    omega
  have hslice : pySlice [((0 : Nat), doc.length)] (0 : Int) ((0 : Int) + num) =
      [((0 : Nat), doc.length)] := by
    unfold pySlice
    rw [h1idx, h2idx]
    rfl
  simp only [chunkLoop]
  rw [if_pos (by norm_num), hslice]
  show ([sliceDoc doc 0 doc.length], [(0, doc.length)]) = _
  rw [show sliceDoc doc 0 doc.length = doc from by
    unfold sliceDoc
    rw [List.take_length, List.drop_zero]]

/-- Witness for `claim_C7` at a boundary-free document. -/
theorem claim_C7_witness :
    "hello".data ≠ [] ∧ hasBoundary "hello".data = false ∧ (1 : Int) ≤ 3 ∧
    chunk_by_sentences "hello".data 3 7 = (["hello".data], [(0, "hello".data.length)]) :=
  ⟨by decide, by decide, by decide, claim_C7 "hello".data 3 7 (by decide) (by decide) (by decide)⟩

/-- Claim C8: the chunking loop always terminates.  The step
`num_sentences - overlap_sentences` after clamping is at least 1; when
`overlap_sentences ≥ num_sentences` the overlap is clamped to
`num_sentences - 1` (the code also prints a non-fatal warning there, which this
embedding does not record); the loop emits at most one chunk per sentence; and
running the loop with any extra fuel beyond one iteration per sentence yields
the same result, i.e. the `while` loop exits within that many iterations. -/
theorem claim_C8 (doc : List Char) (num ov : Int) :
    1 ≤ num - clampOverlap num ov ∧
    (num ≤ ov → clampOverlap num ov = num - 1) ∧
    (chunk_by_sentences doc num ov).1.length ≤ (get_sentences doc).1.length ∧
    ∀ extra : Nat,
      chunkLoop doc (get_sentences doc).2 (get_sentences doc).1.length num
        (num - clampOverlap num ov) 0 ((get_sentences doc).1.length + extra) =
      chunk_by_sentences doc num ov := by
  refine ⟨one_le_step num ov, ?_, ?_, ?_⟩
  · intro h
    unfold clampOverlap
    rw [if_pos (by omega)]
  · show (chunkLoop doc (get_sentences doc).2 (get_sentences doc).1.length num
        (num - clampOverlap num ov) 0 (get_sentences doc).1.length).1.length ≤ _
    exact chunkLoop_length doc (get_sentences doc).2 (get_sentences doc).1.length num
      (num - clampOverlap num ov) (get_sentences doc).1.length 0
  · intro extra
    show _ = chunkLoop doc (get_sentences doc).2 (get_sentences doc).1.length num
        (num - clampOverlap num ov) 0 (get_sentences doc).1.length
    apply chunkLoop_fuel_irrelevant doc (get_sentences doc).2
      (get_sentences doc).1.length num (num - clampOverlap num ov)
      (one_le_step num ov) _ _ 0 (by omega) (by omega)

/-- Witness for `claim_C8` at `num = 2`, `ov = 5` (clamped case). -/
theorem claim_C8_witness :
    (2 : Int) ≤ 5 ∧ 1 ≤ (2 : Int) - clampOverlap 2 5 ∧ clampOverlap 2 5 = 2 - 1 ∧
    (chunk_by_sentences "A. B. C.".data 2 5).1.length ≤
      (get_sentences "A. B. C.".data).1.length ∧
    chunkLoop "A. B. C.".data (get_sentences "A. B. C.".data).2
      (get_sentences "A. B. C.".data).1.length 2 (2 - clampOverlap 2 5) 0
      ((get_sentences "A. B. C.".data).1.length + 4) =
      chunk_by_sentences "A. B. C.".data 2 5 := by
  have h := claim_C8 "A. B. C.".data 2 5
  exact ⟨by decide, h.1, h.2.1 (by decide), h.2.2.1, h.2.2.2 4⟩

end ExampleData

namespace FetchFilter

inductive Json where
  | null : Json
  | bool : Bool → Json
  | num : Int → Json
  | str : String → Json
  | arr : List Json → Json
  | obj : List (String × Json) → Json

inductive LeafOp where
  | equal | not_equal | less_than | less_or_equal | greater_than | greater_or_equal
  | like | contains_any | contains_all

inductive Filter where
  | all_of : List Filter → Filter
  | any_of : List Filter → Filter
  | leaf : Json → LeafOp → Json → Filter
  | is_none : Json → Bool → Filter

mutual
def Json.size : Json → Nat
  | .null | .bool _ | .num _ | .str _ => 0
  | .arr l => 1 + Json.sizeList l
  | .obj fs => 1 + Json.sizeFields fs

def Json.sizeList : List Json → Nat
  | [] => 0
  | x :: xs => Json.size x + Json.sizeList xs

def Json.sizeFields : List (String × Json) → Nat
  | [] => 0
  | kv :: fs => Json.size kv.2 + Json.sizeFields fs
end

def Json.supSize : List Json → Nat
  | [] => 0
  | x :: xs => max (Json.size x + 1) (Json.supSize xs)

def pyTruthy : Json → Bool
  | .null => false
  | .bool b => b
  | .num n => n != 0
  | .str s => !s.isEmpty
  | .arr l => !l.isEmpty
  | .obj fs => !fs.isEmpty

def jget (fields : List (String × Json)) (key : String) : Option Json :=
  (fields.find? (fun kv => kv.1 == key)).map Prod.snd

def jgetPy (fields : List (String × Json)) (key : String) : Json :=
  (jget fields key).getD Json.null

def jgetD (fields : List (String × Json)) (key : String) (d : Json) : Json :=
  (jget fields key).getD d

def jeqStr : Json → String → Bool
  | .str t, s => t == s
  | _, _ => false

def pyIter : Json → Except Nat (List Json)
  | .arr l => .ok l
  | .str s => .ok (s.data.map (fun c => Json.str (String.mk [c])))
  | .obj fs => .ok (fs.map (fun kv => Json.str kv.1))
  | _ => .error 1

/-- Python `str()` as used in the warning f-string of `parse_filter_item`
(scalars rendered faithfully; container rendering abbreviated, and the quotes
of the original message omitted - the claims only depend on a warning being
emitted, not on its exact text). -/
def jsonStr : Json → String
  | .str s => s
  | .num n => toString n
  | .bool true => "True"
  | .bool false => "False"
  | .null => "None"
  | .arr _ => "<list>"
  | .obj _ => "<dict>"

/-- The unknown-operator warning printed to stderr by `parse_filter_item`. -/
def unknownOpWarning (op prop : Json) : String :=
  "Warning: Unknown operator " ++ jsonStr op ++ " for property " ++ jsonStr prop ++ ". Skipping."

theorem jget_size_le (fields : List (String × Json)) (key : String) (v : Json)
    (h : jget fields key = some v) : Json.size v ≤ Json.sizeFields fields := by
  induction fields with
  | nil => simp [jget] at h
  | cons kv fs ih =>
    simp only [jget, List.find?] at h
    by_cases hk : (kv.1 == key) = true
    · simp [hk] at h
      subst h
      simp [Json.sizeFields]
    · simp [hk] at h
      have := ih (by simpa [jget] using h)
      simp [Json.sizeFields]
      omega

theorem supSize_le_arr (l : List Json) : Json.supSize l ≤ 1 + Json.sizeList l := by
  induction l with
  | nil => simp [Json.supSize]
  | cons x xs ih =>
    simp only [Json.supSize, Json.sizeList]
    have hx : Json.size x + 1 ≤ 1 + (Json.size x + Json.sizeList xs) := by omega
    have hxs : Json.supSize xs ≤ 1 + (Json.size x + Json.sizeList xs) := by omega
    omega

theorem supSize_scalar_map {α : Type} (l : List α) (f : α → Json)
    (hf : ∀ a, Json.size (f a) = 0) : Json.supSize (l.map f) ≤ 1 := by
  induction l with
  | nil => simp [Json.supSize]
  | cons x xs ih => simp [Json.supSize, hf]; omega

theorem pyIter_filters_size (fields : List (String × Json)) (sub : List Json)
    (h : pyIter (jgetD fields "filters" (.arr [])) = .ok sub) :
    Json.supSize sub ≤ 1 + Json.sizeFields fields := by
  unfold jgetD at h
  cases hg : jget fields "filters" with
  | none =>
    rw [hg] at h
    simp [pyIter] at h
    subst h
    simp [Json.supSize]
  | some v =>
    rw [hg] at h
    have hv := jget_size_le fields "filters" v hg
    cases v with
    | arr l =>
      simp [pyIter] at h
      subst h
      have := supSize_le_arr l
      simp [Json.size] at hv
      omega
    | str s =>
      simp [pyIter] at h
      subst h
      have := supSize_scalar_map s.data (fun c => Json.str (String.mk [c])) (fun a => rfl)
      omega
    | obj fs =>
      simp [pyIter] at h
      subst h
      have := supSize_scalar_map fs (fun kv => Json.str kv.1) (fun a => rfl)
      omega
    | null => simp [pyIter] at h
    | bool b => simp [pyIter] at h
    | num n => simp [pyIter] at h

def property_filter_case (fields : List (String × Json)) : Except Nat (Option Filter × List String) :=
  let op := jgetPy fields "operator"
  let prop := jgetPy fields "property"
  let val := jgetPy fields "value"
  if !pyTruthy prop || !pyTruthy op then .ok (none, [])
  else if jeqStr op "equal" then .ok (some (.leaf prop .equal val), [])
  else if jeqStr op "not_equal" then .ok (some (.leaf prop .not_equal val), [])
  else if jeqStr op "less_than" then .ok (some (.leaf prop .less_than val), [])
  else if jeqStr op "less_or_equal" then .ok (some (.leaf prop .less_or_equal val), [])
  else if jeqStr op "greater_than" then .ok (some (.leaf prop .greater_than val), [])
  else if jeqStr op "greater_or_equal" then .ok (some (.leaf prop .greater_or_equal val), [])
  else if jeqStr op "like" then .ok (some (.leaf prop .like val), [])
  else if jeqStr op "contains_any" then
    match val with
    | .arr _ => .ok (some (.leaf prop .contains_any val), [])
    | _ => .error 1
  else if jeqStr op "contains_all" then
    match val with
    | .arr _ => .ok (some (.leaf prop .contains_all val), [])
    | _ => .error 1
  else if jeqStr op "is_none" then .ok (some (.is_none prop (pyTruthy val)), [])
  else .ok (none, [unknownOpWarning op prop])

def combineLogical (mk : List Filter → Filter) (subs : List (Option Filter)) (ws : List String) :
    Except Nat (Option Filter × List String) :=
  let sub_filters := subs.filterMap id
  if sub_filters.isEmpty then .ok (none, ws)
  else .ok (some (mk sub_filters), ws)

mutual
def parse_filter_item : Json → Except Nat (Option Filter × List String)
  | .arr items =>
      match parse_filter_items items with
      | .error e => .error e
      | .ok (subs, ws) => combineLogical .all_of subs ws
  | .obj fields =>
      let op := jgetPy fields "operator"
      if jeqStr op "and" then
        match hsub : pyIter (jgetD fields "filters" (.arr [])) with
        | .error e => .error e
        | .ok sub_items =>
            match parse_filter_items sub_items with
            | .error e => .error e
            | .ok (subs, ws) => combineLogical .all_of subs ws
      else if jeqStr op "or" then
        match hsub : pyIter (jgetD fields "filters" (.arr [])) with
        | .error e => .error e
        | .ok sub_items =>
            match parse_filter_items sub_items with
            | .error e => .error e
            | .ok (subs, ws) => combineLogical .any_of subs ws
      else
        property_filter_case fields
  | _ => .ok (none, [])
termination_by j => (Json.size j, 1, 0)
decreasing_by
  · -- arr -> items
    have := supSize_le_arr items
    simp only [Json.size]
    rcases Nat.lt_or_ge (Json.supSize items) (1 + Json.sizeList items) with h | h
    · exact Prod.Lex.left _ _ h
    · have heq : Json.supSize items = 1 + Json.sizeList items := le_antisymm ‹_› h
      rw [heq]
      exact Prod.Lex.right _ (Prod.Lex.left _ _ (by omega))
  · -- obj and -> sub_items
    have := pyIter_filters_size fields sub_items hsub
    simp only [Json.size]
    rcases Nat.lt_or_ge (Json.supSize sub_items) (1 + Json.sizeFields fields) with h | h
    · exact Prod.Lex.left _ _ h
    · have heq : Json.supSize sub_items = 1 + Json.sizeFields fields := le_antisymm ‹_› h
      rw [heq]
      exact Prod.Lex.right _ (Prod.Lex.left _ _ (by omega))
  · -- obj or -> sub_items
    have := pyIter_filters_size fields sub_items hsub
    simp only [Json.size]
    rcases Nat.lt_or_ge (Json.supSize sub_items) (1 + Json.sizeFields fields) with h | h
    · exact Prod.Lex.left _ _ h
    · have heq : Json.supSize sub_items = 1 + Json.sizeFields fields := le_antisymm ‹_› h
      rw [heq]
      exact Prod.Lex.right _ (Prod.Lex.left _ _ (by omega))

def parse_filter_items : List Json → Except Nat (List (Option Filter) × List String)
  | [] => .ok ([], [])
  | x :: xs =>
      match parse_filter_item x with
      | .error e => .error e
      | .ok (f, w1) =>
          match parse_filter_items xs with
          | .error e => .error e
          | .ok (fs, w2) => .ok (f :: fs, w1 ++ w2)
termination_by l => (Json.supSize l, 0, l.length)
decreasing_by
  · -- items cons -> head
    apply Prod.Lex.left
    simp [Json.supSize]
  · -- items cons -> tail
    rcases Nat.lt_or_ge (Json.supSize xs) (Json.supSize (x :: xs)) with h | h
    · exact Prod.Lex.left _ _ h
    · have heq : Json.supSize xs = Json.supSize (x :: xs) := by
        have hle : Json.supSize xs ≤ Json.supSize (x :: xs) := by
          simp only [Json.supSize]; omega
        omega
      rw [heq]
      apply Prod.Lex.right
      apply Prod.Lex.right
      simp
end

end FetchFilter

namespace FetchFilter

/-- The sub-filters a list of JSON items contributes: the compiled filter of
each item that compiles (without fatal error) to a non-null predicate, in the
original order. -/
def childFilters (items : List Json) : List Filter :=
  items.filterMap (fun x =>
    match parse_filter_item x with
    | .ok (some f, _) => some f
    | _ => none)

/-- Test for a JSON list value. -/
def isArr : Json → Bool
  | .arr _ => true
  | _ => false

theorem jeqStr_true_iff (j : Json) (s : String) : jeqStr j s = true ↔ j = Json.str s := by
  cases j <;> simp [jeqStr]

theorem childFilters_cons (x : Json) (xs : List Json) :
    childFilters (x :: xs) =
      (match parse_filter_item x with
       | .ok (some f, _) => f :: childFilters xs
       | _ => childFilters xs) := by
  cases hp : parse_filter_item x with
  | error e => simp [childFilters, List.filterMap_cons, hp]
  | ok a =>
    obtain ⟨f, w⟩ := a
    cases f <;> simp [childFilters, List.filterMap_cons, hp]

theorem parse_filter_items_filterMap (items : List Json) (fs : List (Option Filter))
    (ws : List String) (h : parse_filter_items items = .ok (fs, ws)) :
    fs.filterMap id = childFilters items := by
  induction items generalizing fs ws with
  | nil =>
    rw [parse_filter_items] at h
    injection h with h
    injection h with h1 h2
    subst h1
    rfl
  | cons x xs ih =>
    rw [parse_filter_items] at h
    cases hx : parse_filter_item x with
    | error e => rw [hx] at h; cases h
    | ok a =>
      rw [hx] at h
      obtain ⟨f, w1⟩ := a
      cases hxs : parse_filter_items xs with
      | error e => rw [hxs] at h; cases h
      | ok b =>
        rw [hxs] at h
        obtain ⟨fs', w2⟩ := b
        injection h with h
        injection h with h1 h2
        subst h1
        have hrec := ih fs' w2 hxs
        cases f with
        | none =>
          show List.filterMap id fs' = childFilters (x :: xs)
          rw [hrec, childFilters_cons, hx]
        | some fv =>
          show fv :: List.filterMap id fs' = childFilters (x :: xs)
          rw [hrec, childFilters_cons, hx]

theorem parse_filter_items_all_none (l : List Json)
    (h : ∀ x ∈ l, ∃ w, parse_filter_item x = .ok (none, w)) :
    ∃ ws, parse_filter_items l = .ok (l.map (fun _ => (none : Option Filter)), ws) := by
  induction l with
  | nil =>
    refine ⟨[], ?_⟩
    rw [parse_filter_items]
    rfl
  | cons x xs ih =>
    obtain ⟨w, hw⟩ := h x (List.mem_cons_self _ _)
    obtain ⟨ws, hws⟩ := ih (fun y hy => h y (List.mem_cons_of_mem _ hy))
    refine ⟨w ++ ws, ?_⟩
    rw [parse_filter_items, hw, hws]
    rfl

theorem combineLogical_eq (mk : List Filter → Filter) (subs : List (Option Filter))
    (ws : List String) :
    combineLogical mk subs ws =
      .ok ((if (subs.filterMap id).isEmpty then none
        else some (mk (subs.filterMap id))), ws) := by
  unfold combineLogical
  cases h : (subs.filterMap id).isEmpty <;> simp [h]

end FetchFilter

namespace FetchFilter

theorem filterMap_id_map_none (l : List Json) :
    List.filterMap id (l.map (fun _ => (none : Option Filter))) = [] := by
  induction l with
  | nil => rfl
  | cons x xs ih => simpa using ih

theorem parse_obj_and (fields : List (String × Json)) (l : List Json)
    (rs : List (Option Filter) × List String)
    (hop : jgetPy fields "operator" = Json.str "and")
    (hfil : jgetD fields "filters" (Json.arr []) = Json.arr l)
    (h : parse_filter_items l = .ok rs) :
    parse_filter_item (.obj fields) =
      .ok ((if (childFilters l).isEmpty then none
        else some (.all_of (childFilters l))), rs.2) := by
  obtain ⟨fs, ws⟩ := rs
  rw [parse_filter_item, hop]
  rw [if_pos (by decide : jeqStr (Json.str "and") "and" = true)]
  rw [hfil]
  show (match parse_filter_items l with
    | Except.error e => Except.error e
    | Except.ok (subs, ws) => combineLogical Filter.all_of subs ws) = _
  rw [h]
  show combineLogical Filter.all_of fs ws = _
  rw [combineLogical_eq, parse_filter_items_filterMap l fs ws h]

theorem parse_obj_or (fields : List (String × Json)) (l : List Json)
    (rs : List (Option Filter) × List String)
    (hop : jgetPy fields "operator" = Json.str "or")
    (hfil : jgetD fields "filters" (Json.arr []) = Json.arr l)
    (h : parse_filter_items l = .ok rs) :
    parse_filter_item (.obj fields) =
      .ok ((if (childFilters l).isEmpty then none
        else some (.any_of (childFilters l))), rs.2) := by
  obtain ⟨fs, ws⟩ := rs
  rw [parse_filter_item, hop]
  rw [if_neg (by decide : ¬ jeqStr (Json.str "or") "and" = true)]
  rw [if_pos (by decide : jeqStr (Json.str "or") "or" = true)]
  rw [hfil]
  show (match parse_filter_items l with
    | Except.error e => Except.error e
    | Except.ok (subs, ws) => combineLogical Filter.any_of subs ws) = _
  rw [h]
  show combineLogical Filter.any_of fs ws = _
  rw [combineLogical_eq, parse_filter_items_filterMap l fs ws h]

/-- Claim C3: for every JSON list whose elements all compile without fatal
error (`parse_filter_items items = .ok rs`), compiling the list yields the
AND-conjunction of exactly those elements that individually compile to a
non-null predicate, in their original order (`childFilters items`); if the
list is empty or every element compiles to null, the result is null. -/
theorem claim_C3 (items : List Json) (rs : List (Option Filter) × List String)
    (h : parse_filter_items items = .ok rs) :
    parse_filter_item (.arr items) =
      .ok ((if (childFilters items).isEmpty then none
        else some (.all_of (childFilters items))), rs.2) := by
  obtain ⟨fs, ws⟩ := rs
  rw [parse_filter_item, h]
  show combineLogical Filter.all_of fs ws = _
  rw [combineLogical_eq, parse_filter_items_filterMap items fs ws h]

/-- Witness for `claim_C3`: a two-element list in which the first element is a
compilable property filter and the second compiles to null with a warning; the
result is the AND of exactly the surviving filter. -/
theorem claim_C3_witness :
    parse_filter_items
      [Json.obj [("property", Json.str "round"), ("operator", Json.str "equal"),
        ("value", Json.str "x")],
       Json.obj [("property", Json.str "p"), ("operator", Json.str "bogus"),
        ("value", Json.num 1)]] =
      .ok ([some (Filter.leaf (Json.str "round") LeafOp.equal (Json.str "x")), none],
        [unknownOpWarning (Json.str "bogus") (Json.str "p")]) ∧
    parse_filter_item (.arr
      [Json.obj [("property", Json.str "round"), ("operator", Json.str "equal"),
        ("value", Json.str "x")],
       Json.obj [("property", Json.str "p"), ("operator", Json.str "bogus"),
        ("value", Json.num 1)]]) =
      .ok ((if (childFilters
          [Json.obj [("property", Json.str "round"), ("operator", Json.str "equal"),
            ("value", Json.str "x")],
           Json.obj [("property", Json.str "p"), ("operator", Json.str "bogus"),
            ("value", Json.num 1)]]).isEmpty then none
        else some (.all_of (childFilters
          [Json.obj [("property", Json.str "round"), ("operator", Json.str "equal"),
            ("value", Json.str "x")],
           Json.obj [("property", Json.str "p"), ("operator", Json.str "bogus"),
            ("value", Json.num 1)]]))),
        [unknownOpWarning (Json.str "bogus") (Json.str "p")]) := by
  have hp : parse_filter_items
      [Json.obj [("property", Json.str "round"), ("operator", Json.str "equal"),
        ("value", Json.str "x")],
       Json.obj [("property", Json.str "p"), ("operator", Json.str "bogus"),
        ("value", Json.num 1)]] =
      .ok ([some (Filter.leaf (Json.str "round") LeafOp.equal (Json.str "x")), none],
        [unknownOpWarning (Json.str "bogus") (Json.str "p")]) := by
    simp +decide [parse_filter_item, parse_filter_items, property_filter_case, combineLogical,
      jgetPy, jgetD, jget, jeqStr, pyTruthy, pyIter, List.find?]
  exact ⟨hp, claim_C3 _ _ hp⟩

end FetchFilter

namespace FetchFilter

/-- Claim C4: a JSON object with operator `and` (resp. `or`) and a `filters`
list compiles each child, drops nulls, and returns the conjunction (resp.
disjunction) of the surviving children, or null if none survives; in
particular the empty `or` compiles to null. -/
theorem claim_C4 :
    (∀ (fields : List (String × Json)) (l : List Json)
        (rs : List (Option Filter) × List String),
      jgetPy fields "operator" = Json.str "and" →
      jgetD fields "filters" (Json.arr []) = Json.arr l →
      parse_filter_items l = .ok rs →
      parse_filter_item (.obj fields) =
        .ok ((if (childFilters l).isEmpty then none
          else some (.all_of (childFilters l))), rs.2)) ∧
    (∀ (fields : List (String × Json)) (l : List Json)
        (rs : List (Option Filter) × List String),
      jgetPy fields "operator" = Json.str "or" →
      jgetD fields "filters" (Json.arr []) = Json.arr l →
      parse_filter_items l = .ok rs →
      parse_filter_item (.obj fields) =
        .ok ((if (childFilters l).isEmpty then none
          else some (.any_of (childFilters l))), rs.2)) ∧
    parse_filter_item (.obj [("operator", Json.str "or"), ("filters", Json.arr [])]) =
      .ok (none, []) := by
  refine ⟨parse_obj_and, parse_obj_or, ?_⟩
  have h3 := parse_obj_or [("operator", Json.str "or"), ("filters", Json.arr [])]
    [] ([], []) rfl rfl (by rw [parse_filter_items])
  rw [h3]
  rfl

/-- Witness for `claim_C4` instantiating the `and` and `or` parts at concrete
objects carrying one compilable child each. -/
theorem claim_C4_witness :
    parse_filter_item (.obj [("operator", Json.str "and"),
      ("filters", Json.arr [Json.obj [("property", Json.str "a"),
        ("operator", Json.str "like"), ("value", Json.str "w")]])]) =
      .ok ((if (childFilters [Json.obj [("property", Json.str "a"),
          ("operator", Json.str "like"), ("value", Json.str "w")]]).isEmpty then none
        else some (.all_of (childFilters [Json.obj [("property", Json.str "a"),
          ("operator", Json.str "like"), ("value", Json.str "w")]]))), []) ∧
    parse_filter_item (.obj [("operator", Json.str "or"), ("filters", Json.arr [])]) =
      .ok (none, []) := by
  have hitems : parse_filter_items [Json.obj [("property", Json.str "a"),
      ("operator", Json.str "like"), ("value", Json.str "w")]] =
      .ok ([some (Filter.leaf (Json.str "a") LeafOp.like (Json.str "w"))], []) := by
    simp +decide [parse_filter_item, parse_filter_items, property_filter_case, combineLogical,
      jgetPy, jgetD, jget, jeqStr, pyTruthy, pyIter, List.find?]
  exact ⟨(claim_C4.1) [("operator", Json.str "and"),
      ("filters", Json.arr [Json.obj [("property", Json.str "a"),
        ("operator", Json.str "like"), ("value", Json.str "w")]])]
      [Json.obj [("property", Json.str "a"), ("operator", Json.str "like"),
        ("value", Json.str "w")]]
      ([some (Filter.leaf (Json.str "a") LeafOp.like (Json.str "w"))], [])
      (by rfl) (by rfl) hitems,
    claim_C4.2.2⟩

end FetchFilter

namespace FetchFilter

/-- Claim C5: a property filter (truthy property) whose operator is
`contains_any` or `contains_all` and whose value is not a JSON list fails
fast: the compiler raises the fatal exit (code 1, non-zero), producing no
partial filter (an `Except.error` carries no filter at all). -/
theorem claim_C5 (fields : List (String × Json))
    (hprop : pyTruthy (jgetPy fields "property") = true)
    (hop : jgetPy fields "operator" = Json.str "contains_any" ∨
      jgetPy fields "operator" = Json.str "contains_all")
    (hval : isArr (jgetPy fields "value") = false) :
    parse_filter_item (.obj fields) = .error 1 := by
  rcases hop with hop | hop
  · rw [parse_filter_item, hop]
    rw [if_neg (by decide : ¬ jeqStr (Json.str "contains_any") "and" = true)]
    rw [if_neg (by decide : ¬ jeqStr (Json.str "contains_any") "or" = true)]
    unfold property_filter_case
    rw [hop]
    rw [if_neg (by rw [hprop]; decide)]
    rw [if_neg (by decide : ¬ jeqStr (Json.str "contains_any") "equal" = true)]
    rw [if_neg (by decide : ¬ jeqStr (Json.str "contains_any") "not_equal" = true)]
    rw [if_neg (by decide : ¬ jeqStr (Json.str "contains_any") "less_than" = true)]
    rw [if_neg (by decide : ¬ jeqStr (Json.str "contains_any") "less_or_equal" = true)]
    rw [if_neg (by decide : ¬ jeqStr (Json.str "contains_any") "greater_than" = true)]
    rw [if_neg (by decide : ¬ jeqStr (Json.str "contains_any") "greater_or_equal" = true)]
    rw [if_neg (by decide : ¬ jeqStr (Json.str "contains_any") "like" = true)]
    rw [if_pos (by decide : jeqStr (Json.str "contains_any") "contains_any" = true)]
    cases hv : jgetPy fields "value" with
    | arr l =>
      rw [hv] at hval
      simp [isArr] at hval
    | null => rfl
    | bool b => rfl
    | num n => rfl
    | str s => rfl
    | obj fs => rfl
  · rw [parse_filter_item, hop]
    rw [if_neg (by decide : ¬ jeqStr (Json.str "contains_all") "and" = true)]
    rw [if_neg (by decide : ¬ jeqStr (Json.str "contains_all") "or" = true)]
    unfold property_filter_case
    rw [hop]
    rw [if_neg (by rw [hprop]; decide)]
    rw [if_neg (by decide : ¬ jeqStr (Json.str "contains_all") "equal" = true)]
    rw [if_neg (by decide : ¬ jeqStr (Json.str "contains_all") "not_equal" = true)]
    rw [if_neg (by decide : ¬ jeqStr (Json.str "contains_all") "less_than" = true)]
    rw [if_neg (by decide : ¬ jeqStr (Json.str "contains_all") "less_or_equal" = true)]
    rw [if_neg (by decide : ¬ jeqStr (Json.str "contains_all") "greater_than" = true)]
    rw [if_neg (by decide : ¬ jeqStr (Json.str "contains_all") "greater_or_equal" = true)]
    rw [if_neg (by decide : ¬ jeqStr (Json.str "contains_all") "like" = true)]
    rw [if_neg (by decide : ¬ jeqStr (Json.str "contains_all") "contains_any" = true)]
    rw [if_pos (by decide : jeqStr (Json.str "contains_all") "contains_all" = true)]
    cases hv : jgetPy fields "value" with
    | arr l =>
      rw [hv] at hval
      simp [isArr] at hval
    | null => rfl
    | bool b => rfl
    | num n => rfl
    | str s => rfl
    | obj fs => rfl

/-- Witness for `claim_C5` at the specification example
`compile({"property": "x", "operator": "contains_any", "value": "notalist"})`. -/
theorem claim_C5_witness :
    pyTruthy (jgetPy [("property", Json.str "x"), ("operator", Json.str "contains_any"),
      ("value", Json.str "notalist")] "property") = true ∧
    isArr (jgetPy [("property", Json.str "x"), ("operator", Json.str "contains_any"),
      ("value", Json.str "notalist")] "value") = false ∧
    parse_filter_item (.obj [("property", Json.str "x"),
      ("operator", Json.str "contains_any"), ("value", Json.str "notalist")]) =
      .error 1 :=
  ⟨by decide, by decide,
    claim_C5 [("property", Json.str "x"), ("operator", Json.str "contains_any"),
      ("value", Json.str "notalist")] (by decide) (Or.inl rfl) (by decide)⟩

end FetchFilter

namespace FetchFilter

theorem jeqStr_false_of_ne (s t : String) (h : s ≠ t) : jeqStr (Json.str s) t = false := by
  simp only [jeqStr]
  exact beq_eq_false_iff_ne.mpr h

/-- Claim C6: a property filter (truthy property) whose operator is a nonempty
string outside the recognized set compiles to null together with exactly one
warning message, and without a fatal error: the term is simply dropped from
any enclosing conjunction or disjunction (see `claim_C3`/`claim_C4`, whose
`childFilters` omit null children) and compilation continues. -/
theorem claim_C6 (fields : List (String × Json)) (s : String)
    (hop : jgetPy fields "operator" = Json.str s)
    (hs : s ∉ (["and", "or", "equal", "not_equal", "less_than", "less_or_equal",
      "greater_than", "greater_or_equal", "like", "contains_any", "contains_all",
      "is_none"] : List String))
    (hse : s ≠ "")
    (hprop : pyTruthy (jgetPy fields "property") = true) :
    parse_filter_item (.obj fields) =
      .ok (none, [unknownOpWarning (Json.str s) (jgetPy fields "property")]) := by
  simp only [List.mem_cons, List.not_mem_nil, or_false, not_or] at hs
  obtain ⟨h1, h2, h3, h4, h5, h6, h7, h8, h9, h10, h11, h12⟩ := hs
  have hpt : pyTruthy (Json.str s) = true := by
    simp only [pyTruthy, Bool.not_eq_true']
    exact Bool.eq_false_iff.mpr (fun hcon => hse ((String.isEmpty_iff s).mp hcon))
  rw [parse_filter_item, hop]
  rw [if_neg (by rw [jeqStr_false_of_ne s "and" h1]; exact Bool.false_ne_true)]
  rw [if_neg (by rw [jeqStr_false_of_ne s "or" h2]; exact Bool.false_ne_true)]
  unfold property_filter_case
  rw [hop]
  rw [if_neg (by rw [hprop, hpt]; decide)]
  rw [if_neg (by rw [jeqStr_false_of_ne s "equal" h3]; exact Bool.false_ne_true)]
  rw [if_neg (by rw [jeqStr_false_of_ne s "not_equal" h4]; exact Bool.false_ne_true)]
  rw [if_neg (by rw [jeqStr_false_of_ne s "less_than" h5]; exact Bool.false_ne_true)]
  rw [if_neg (by rw [jeqStr_false_of_ne s "less_or_equal" h6]; exact Bool.false_ne_true)]
  rw [if_neg (by rw [jeqStr_false_of_ne s "greater_than" h7]; exact Bool.false_ne_true)]
  rw [if_neg (by rw [jeqStr_false_of_ne s "greater_or_equal" h8]; exact Bool.false_ne_true)]
  rw [if_neg (by rw [jeqStr_false_of_ne s "like" h9]; exact Bool.false_ne_true)]
  rw [if_neg (by rw [jeqStr_false_of_ne s "contains_any" h10]; exact Bool.false_ne_true)]
  rw [if_neg (by rw [jeqStr_false_of_ne s "contains_all" h11]; exact Bool.false_ne_true)]
  rw [if_neg (by rw [jeqStr_false_of_ne s "is_none" h12]; exact Bool.false_ne_true)]

/-- Witness for `claim_C6` at operator `fuzzy`. -/
theorem claim_C6_witness :
    jgetPy [("property", Json.str "p"), ("operator", Json.str "fuzzy"),
      ("value", Json.num 3)] "operator" = Json.str "fuzzy" ∧
    ("fuzzy" : String) ∉ (["and", "or", "equal", "not_equal", "less_than", "less_or_equal",
      "greater_than", "greater_or_equal", "like", "contains_any", "contains_all",
      "is_none"] : List String) ∧
    parse_filter_item (.obj [("property", Json.str "p"), ("operator", Json.str "fuzzy"),
      ("value", Json.num 3)]) =
      .ok (none, [unknownOpWarning (Json.str "fuzzy")
        (jgetPy [("property", Json.str "p"), ("operator", Json.str "fuzzy"),
          ("value", Json.num 3)] "property")]) :=
  ⟨rfl, by decide,
    claim_C6 [("property", Json.str "p"), ("operator", Json.str "fuzzy"),
      ("value", Json.num 3)] "fuzzy" rfl (by decide) (by decide) (by decide)⟩

/-- Claim C10: in the filter compiler the logical-operator check precedes the
property-filter check.  Any object whose `operator` is `and` or `or` is
treated as a logical node even when `property` and `value` keys are present:
(1) if its `filters` key is absent, or is a list all of whose elements compile
to null, the object compiles to null without an error and without producing a
leaf; (2) whenever such an object compiles to a non-null filter, that filter
is a conjunction or disjunction, never a property leaf. -/
theorem claim_C10 :
    (∀ (fields : List (String × Json)),
      (jgetPy fields "operator" = Json.str "and" ∨
        jgetPy fields "operator" = Json.str "or") →
      (jget fields "filters" = none ∨
        ∃ l, jget fields "filters" = some (Json.arr l) ∧
          ∀ x ∈ l, ∃ w, parse_filter_item x = .ok (none, w)) →
      ∃ ws, parse_filter_item (.obj fields) = .ok (none, ws)) ∧
    (∀ (fields : List (String × Json)) (r : Filter) (ws : List String),
      (jgetPy fields "operator" = Json.str "and" ∨
        jgetPy fields "operator" = Json.str "or") →
      parse_filter_item (.obj fields) = .ok (some r, ws) →
      ∃ fs, r = Filter.all_of fs ∨ r = Filter.any_of fs) := by
  have hnull : ∀ (fields : List (String × Json)) (l : List Json),
      (jgetPy fields "operator" = Json.str "and" ∨
        jgetPy fields "operator" = Json.str "or") →
      jgetD fields "filters" (Json.arr []) = Json.arr l →
      (∀ x ∈ l, ∃ w, parse_filter_item x = .ok (none, w)) →
      ∃ ws, parse_filter_item (.obj fields) = .ok (none, ws) := by
    intro fields l hop hfil hall
    obtain ⟨ws, hws⟩ := parse_filter_items_all_none l hall
    have hnone : (if (childFilters l).isEmpty then (none : Option Filter)
        else some (Filter.all_of (childFilters l))) = none := by
      rw [if_pos]
      rw [List.isEmpty_iff, ← parse_filter_items_filterMap l _ _ hws,
        filterMap_id_map_none]
    have hnone2 : (if (childFilters l).isEmpty then (none : Option Filter)
        else some (Filter.any_of (childFilters l))) = none := by
      rw [if_pos]
      rw [List.isEmpty_iff, ← parse_filter_items_filterMap l _ _ hws,
        filterMap_id_map_none]
    rcases hop with hop | hop
    · refine ⟨ws, ?_⟩
      have h := parse_obj_and fields l (l.map (fun _ => none), ws) hop hfil hws
      rw [h, hnone]
    · refine ⟨ws, ?_⟩
      have h := parse_obj_or fields l (l.map (fun _ => none), ws) hop hfil hws
      rw [h, hnone2]
  constructor
  · intro fields hop hfil
    rcases hfil with hfe | ⟨l, hfe, hall⟩
    · apply hnull fields [] hop
      · unfold jgetD
        rw [hfe]
        rfl
      · intro x hx
        cases hx
    · apply hnull fields l hop
      · unfold jgetD
        rw [hfe]
        rfl
      · exact hall
  · intro fields r ws hop hres
    rcases hop with hop | hop
    · rw [parse_filter_item, hop] at hres
      rw [if_pos (by decide : jeqStr (Json.str "and") "and" = true)] at hres
      split at hres
      · cases hres
      · rename_i sub_items hsub
        split at hres
        · cases hres
        · rename_i subs ws2 hitems
          rw [combineLogical_eq] at hres
          by_cases hemp : (List.filterMap id subs).isEmpty
          · rw [if_pos hemp] at hres
            cases hres
          · rw [if_neg hemp] at hres
            injection hres with hres
            injection hres with hr hw
            injection hr with hr
            exact ⟨List.filterMap id subs, Or.inl hr.symm⟩
    · rw [parse_filter_item, hop] at hres
      rw [if_neg (by decide : ¬ jeqStr (Json.str "or") "and" = true)] at hres
      rw [if_pos (by decide : jeqStr (Json.str "or") "or" = true)] at hres
      split at hres
      · cases hres
      · rename_i sub_items hsub
        split at hres
        · cases hres
        · rename_i subs ws2 hitems
          rw [combineLogical_eq] at hres
          by_cases hemp : (List.filterMap id subs).isEmpty
          · rw [if_pos hemp] at hres
            cases hres
          · rw [if_neg hemp] at hres
            injection hres with hres
            injection hres with hr hw
            injection hr with hr
            exact ⟨List.filterMap id subs, Or.inr hr.symm⟩

/-- Witness for `claim_C10`: an object with operator `and` that also carries
`property` and `value` keys but no `filters` key compiles to null, not to a
property leaf and not to an error. -/
theorem claim_C10_witness :
    (jgetPy [("operator", Json.str "and"), ("property", Json.str "x"),
      ("value", Json.num 1)] "operator" = Json.str "and" ∨
      jgetPy [("operator", Json.str "and"), ("property", Json.str "x"),
        ("value", Json.num 1)] "operator" = Json.str "or") ∧
    jget [("operator", Json.str "and"), ("property", Json.str "x"),
      ("value", Json.num 1)] "filters" = none ∧
    ∃ ws, parse_filter_item (.obj [("operator", Json.str "and"),
      ("property", Json.str "x"), ("value", Json.num 1)]) = .ok (none, ws) :=
  ⟨Or.inl rfl, rfl,
    claim_C10.1 [("operator", Json.str "and"), ("property", Json.str "x"),
      ("value", Json.num 1)] (Or.inl rfl) (Or.inl rfl)⟩

end FetchFilter
